import Mathlib

/-!
Shallow embedding of the tick simulation of the bw-snake game
(src/src/game/plugin.rs, src/src/game/components.rs).

Machine integers (`u32` in the source) are modelled as `Nat` with explicit
reduction modulo `2^32` wherever the source performs `u32` arithmetic that
can overflow or underflow (release-build wrapping semantics).
-/

namespace BwSnake

/-- The modulus of `u32` arithmetic, `2^32`. -/
def U32MOD : Nat := 2 ^ 32

/-- The struct `Pos` from components.rs: a pair of `u32` grid coordinates. -/
structure Pos where
  x : Nat
  y : Nat
deriving DecidableEq

/-- The enum `Direction` from components.rs. -/
inductive Direction where
  | Up
  | Down
  | Left
  | Right
deriving DecidableEq

/-- The method `Direction::opposite` from components.rs. -/
def Direction.opposite : Direction → Direction
  | .Up => .Down
  | .Down => .Up
  | .Right => .Left
  | .Left => .Right

/-- The struct `SnakeMeta` from components.rs: length target, current direction, and the
direction used to reach the current position. -/
structure SnakeMeta where
  len : Nat
  dir : Direction
  prev_dir : Direction
deriving DecidableEq

/-- A snake body segment: `SnakeBody` entity with its `Pos` and `Age`
components (plugin.rs `spawn_snake_body`). -/
structure BodySeg where
  pos : Pos
  age : Nat
deriving DecidableEq

/-- The head-position update of `GamePlugin::move_snake` (plugin.rs):
`pos.y += 1` / `pos.y -= 1` / `pos.x -= 1` / `pos.x += 1` on `u32` fields,
i.e. wrapping arithmetic modulo `2^32`. -/
def movePos (dir : Direction) (p : Pos) : Pos :=
  match dir with
  | .Up => { p with y := (p.y + 1) % U32MOD }
  | .Down => { p with y := (p.y + (U32MOD - 1)) % U32MOD }
  | .Left => { p with x := (p.x + (U32MOD - 1)) % U32MOD }
  | .Right => { p with x := (p.x + 1) % U32MOD }

/-- The system `GamePlugin::move_snake` (plugin.rs): updates the head position along
`dir`, sets `prev_dir = dir`, and spawns one new `SnakeBody` segment with
`Age(0)` at the old head position.  Returns the updated meta, the updated
head position and the newly spawned segment. -/
def move_snake (meta : SnakeMeta) (pos : Pos) : SnakeMeta × Pos × BodySeg :=
  ({ meta with prev_dir := meta.dir }, movePos meta.dir pos,
   { pos := pos, age := 0 })

/-- The system `GamePlugin::eat_food` (plugin.rs): iterate over the food entities
`(entity_id, pos)`; at the first one whose position equals the position of
the snake, despawn it and increment `snake_meta.len` (u32), then `break`.
Returns the updated meta and the remaining food entities. -/
def eat_food (meta : SnakeMeta) (pos : Pos) :
    List (Nat × Pos) → SnakeMeta × List (Nat × Pos)
  | [] => (meta, [])
  | (et, fp) :: rest =>
    if pos = fp then
      ({ meta with len := (meta.len + 1) % U32MOD }, rest)
    else
      let r := eat_food meta pos rest
      (r.1, (et, fp) :: r.2)

/-- The `age.as_mut().0 += 1` step of `GamePlugin::despawn_old` (u32). -/
def ageSeg (s : BodySeg) : BodySeg :=
  { s with age := (s.age + 1) % U32MOD }

/-- The system `GamePlugin::despawn_old` (plugin.rs): increment the age of
every living segment, then despawn each segment for which `age.0 + 1 == snake_meta.len`
(the comparison value `age.0 + 1` is again a `u32` addition). -/
def despawn_old (len : Nat) (body : List BodySeg) : List BodySeg :=
  (body.map ageSeg).filter (fun s => decide ((s.age + 1) % U32MOD ≠ len))

/-- The key codes `GamePlugin::control_snake` matches on. -/
inductive KeyCode where
  | Up
  | W
  | Down
  | S
  | Left
  | A
  | Right
  | D
  | Other
deriving DecidableEq

/-- The `tmp_dir` computation of `GamePlugin::control_snake`: start from the
current direction, overwrite it when the released key is one of the eight
direction keys, leave it untouched otherwise (the `_ => {}` arm, which also
covers "no key released"). -/
def tmp_dir_of (key : Option KeyCode) (cur : Direction) : Direction :=
  match key with
  | some KeyCode.Up => Direction.Up
  | some KeyCode.W => Direction.Up
  | some KeyCode.Down => Direction.Down
  | some KeyCode.S => Direction.Down
  | some KeyCode.Left => Direction.Left
  | some KeyCode.A => Direction.Left
  | some KeyCode.Right => Direction.Right
  | some KeyCode.D => Direction.Right
  | some KeyCode.Other => cur
  | none => cur

/-- The system `GamePlugin::control_snake` (plugin.rs): when the input resource changed,
compute `tmp_dir` and commit it to `snake_meta.dir` only if it differs from
`snake_meta.prev_dir.opposite()`.  `prev_dir` is never written here. -/
def control_snake (inputChanged : Bool) (key : Option KeyCode)
    (meta : SnakeMeta) : SnakeMeta :=
  if inputChanged then
    let t := tmp_dir_of key meta.dir
    if t ≠ meta.prev_dir.opposite then { meta with dir := t } else meta
  else meta

/-- The system `GamePlugin::check_snake_collides` (plugin.rs): when the `Pos`
of the snake did not change since the last run the query is empty and the system returns
immediately (modelled by `none`); otherwise every collidable entity standing
on the position of the snake whose id differs from the id of the snake is
flagged
(the source prints "failed" once per such entity; we collect the ids in
iteration order). -/
def check_snake_collides (snake : Option (Nat × Pos))
    (collidables : List (Nat × Pos)) : List Nat :=
  match snake with
  | none => []
  | some sn =>
    (collidables.filter (fun e => decide (e.2 = sn.2 ∧ e.1 ≠ sn.1))).map
      (fun e => e.1)

/-- The initial `SnakeMeta` built by `GamePlugin::spawn_snake` (plugin.rs). -/
def initMeta : SnakeMeta :=
  { len := 4, dir := Direction.Right, prev_dir := Direction.Right }

/-- The initial head position of `GamePlugin::spawn_snake` (plugin.rs). -/
def initPos : Pos := { x := 5, y := 5 }

/-! ### C9: `opposite` is involutive -/

/-- C9: for every direction `d`, `opposite (opposite d) = d`; `opposite` is a
total function pairing Up with Down and Left with Right. -/
theorem opposite_involutive :
    (∀ d : Direction, d.opposite.opposite = d) ∧
    Direction.opposite Direction.Up = Direction.Down ∧
    Direction.opposite Direction.Down = Direction.Up ∧
    Direction.opposite Direction.Left = Direction.Right ∧
    Direction.opposite Direction.Right = Direction.Left := by
  refine ⟨fun d => ?_, rfl, rfl, rfl, rfl⟩
  cases d <;> rfl

/-- The function `opposite` has no fixed point. -/
theorem opposite_ne (d : Direction) : d.opposite ≠ d := by
  cases d <;> simp [Direction.opposite]

/-! ### C2: 180° reversals are never applied -/

/-- The system `control_snake` never writes `prev_dir`. -/
theorem control_snake_prev (c : Bool) (k : Option KeyCode) (meta : SnakeMeta) :
    (control_snake c k meta).prev_dir = meta.prev_dir := by
  unfold control_snake
  split
  · dsimp only
    split
    · rfl
    · rfl
  · rfl

/-- A single `control_snake` step preserves `dir ≠ prev_dir.opposite`. -/
theorem control_snake_dir_ne (c : Bool) (k : Option KeyCode) (meta : SnakeMeta)
    (h : meta.dir ≠ meta.prev_dir.opposite) :
    (control_snake c k meta).dir ≠ meta.prev_dir.opposite := by
  unfold control_snake
  split
  · dsimp only
    split
    · simpa using ‹tmp_dir_of k meta.dir ≠ meta.prev_dir.opposite›
    · exact h
  · exact h

/-- Folding any sequence of input events through `control_snake` preserves
`dir ≠ prev_dir.opposite` and leaves `prev_dir` untouched. -/
theorem control_snake_fold (events : List (Bool × Option KeyCode)) :
    ∀ meta : SnakeMeta, meta.dir ≠ meta.prev_dir.opposite →
      (events.foldl (fun m e => control_snake e.1 e.2 m) meta).dir
          ≠ meta.prev_dir.opposite ∧
      (events.foldl (fun m e => control_snake e.1 e.2 m) meta).prev_dir
          = meta.prev_dir := by
  induction events with
  | nil => exact fun meta h => ⟨h, rfl⟩
  | cons e rest ih =>
    intro meta h
    rw [List.foldl_cons]
    have h1 := control_snake_dir_ne e.1 e.2 meta h
    have h2 := control_snake_prev e.1 e.2 meta
    obtain ⟨a, b⟩ := ih (control_snake e.1 e.2 meta) (by rw [h2]; exact h1)
    exact ⟨by rw [← h2]; exact a, by rw [b, h2]⟩

/-- C2: between two moves (`prev_dir` is only written by `move_snake`), any
sequence of direction requests leaves `prev_dir` unchanged and never puts the
snake into `prev_dir.opposite`; a request whose key maps to
`prev_dir.opposite` is rejected and leaves the current direction unchanged;
and the state right after a move satisfies the premise
`dir ≠ prev_dir.opposite`. -/
theorem control_snake_no_reversal :
    (∀ (meta : SnakeMeta) (events : List (Bool × Option KeyCode)),
      meta.dir ≠ meta.prev_dir.opposite →
      (events.foldl (fun m e => control_snake e.1 e.2 m) meta).dir
          ≠ meta.prev_dir.opposite ∧
      (events.foldl (fun m e => control_snake e.1 e.2 m) meta).prev_dir
          = meta.prev_dir) ∧
    (∀ (meta : SnakeMeta) (c : Bool) (k : Option KeyCode),
      tmp_dir_of k meta.dir = meta.prev_dir.opposite →
      (control_snake c k meta).dir = meta.dir) ∧
    (∀ (meta : SnakeMeta) (pos : Pos),
      (move_snake meta pos).1.dir ≠ (move_snake meta pos).1.prev_dir.opposite) := by
  refine ⟨fun meta events h => control_snake_fold events meta h, ?_, ?_⟩
  · intro meta c k hk
    unfold control_snake
    split
    · dsimp only
      rw [if_neg]
      simp [hk]
    · rfl
  · intro meta pos
    show meta.dir ≠ meta.dir.opposite
    exact fun h => opposite_ne meta.dir h.symm

/-- Witness for C2 at a concrete input: from the freshly spawned snake
(direction Right, `prev_dir` Right), a Left request (the 180° reversal) is
rejected by a fold of one event and by a single `control_snake` call. -/
theorem control_snake_no_reversal_witness :
    initMeta.dir ≠ initMeta.prev_dir.opposite ∧
    (([((true : Bool), some KeyCode.Left)]).foldl
        (fun m e => control_snake e.1 e.2 m) initMeta).dir
      ≠ initMeta.prev_dir.opposite ∧
    tmp_dir_of (some KeyCode.Left) initMeta.dir = initMeta.prev_dir.opposite ∧
    (control_snake true (some KeyCode.Left) initMeta).dir = initMeta.dir :=
  ⟨by decide,
   (control_snake_no_reversal.1 initMeta [((true : Bool), some KeyCode.Left)]
     (by decide)).1,
   by decide,
   control_snake_no_reversal.2.1 initMeta true (some KeyCode.Left) (by decide)⟩

/-! ### C4: one-tile step, `prev_dir` update, one new segment -/

/-- C4: away from the `u32` wrap boundaries, a move offsets the head exactly
one tile along the current direction (Up: y+1, Down: y−1, Left: x−1,
Right: x+1), preserves `len` and `dir`, sets `prev_dir` to the direction
used, and produces exactly one new body segment, at the previous head
coordinate, with age 0. -/
theorem move_snake_step (m : SnakeMeta) (p : Pos)
    (hx0 : 0 < p.x) (hy0 : 0 < p.y)
    (hx1 : p.x + 1 < U32MOD) (hy1 : p.y + 1 < U32MOD) :
    (move_snake m p).1.prev_dir = m.dir ∧
    (move_snake m p).1.dir = m.dir ∧
    (move_snake m p).1.len = m.len ∧
    (move_snake m p).2.2 = { pos := p, age := 0 } ∧
    (move_snake m p).2.1 =
      (match m.dir with
       | Direction.Up => { p with y := p.y + 1 }
       | Direction.Down => { p with y := p.y - 1 }
       | Direction.Left => { p with x := p.x - 1 }
       | Direction.Right => { p with x := p.x + 1 }) := by
  have hU : 1 ≤ U32MOD := by norm_num [U32MOD]
  refine ⟨rfl, rfl, rfl, rfl, ?_⟩
  show movePos m.dir p = _
  cases m.dir <;> unfold movePos <;> dsimp only
  · rw [Nat.mod_eq_of_lt hy1]
  · have e : p.y + (U32MOD - 1) = (p.y - 1) + U32MOD := by omega
    rw [e, Nat.add_mod_right, Nat.mod_eq_of_lt (by omega)]
  · have e : p.x + (U32MOD - 1) = (p.x - 1) + U32MOD := by omega
    rw [e, Nat.add_mod_right, Nat.mod_eq_of_lt (by omega)]
  · rw [Nat.mod_eq_of_lt hx1]

/-- Witness for C4 at the spawn state: moving Right from (5,5) gives head
(6,5), `prev_dir = Right`, and one age-0 segment at (5,5). -/
theorem move_snake_step_witness :
    0 < initPos.x ∧ initPos.x + 1 < U32MOD ∧
    (move_snake initMeta initPos).2.2 = { pos := initPos, age := 0 } ∧
    (move_snake initMeta initPos).2.1 = { x := 6, y := 5 } :=
  ⟨by decide, by decide,
   (move_snake_step initMeta initPos (by decide) (by decide)
      (by decide) (by decide)).2.2.2.1,
   ((move_snake_step initMeta initPos (by decide) (by decide)
      (by decide) (by decide)).2.2.2.2).trans (by decide)⟩

/-! ### C8: low-edge moves wrap modulo 2^32 -/

/-- C8 counterexample: moving Left from x = 0 (and Down from y = 0) is
neither clamped nor a failure — the coordinate silently wraps to 2^32 − 1,
exactly the `u32` wrapping-subtraction result. -/
theorem movePos_underflow_counterexample :
    (movePos Direction.Left { x := 0, y := 5 }).x = U32MOD - 1 ∧
    (movePos Direction.Down { x := 5, y := 0 }).y = U32MOD - 1 ∧
    U32MOD - 1 ≠ 0 := by
  refine ⟨?_, ?_, by norm_num [U32MOD]⟩ <;>
    · show (0 + (U32MOD - 1)) % U32MOD = U32MOD - 1
      rw [Nat.zero_add, Nat.mod_eq_of_lt (by norm_num [U32MOD])]

/-- C8 amended: head-position arithmetic is unchecked `u32` arithmetic — a
move off the low edge wraps the coordinate to 2^32 − 1 (release-build
semantics), while an interior move decrements by exactly 1; nothing clamps
or fails fast. -/
theorem movePos_low_edge_behavior (p : Pos)
    (hx : p.x < U32MOD) (hy : p.y < U32MOD) :
    (p.x = 0 → (movePos Direction.Left p).x = U32MOD - 1) ∧
    (0 < p.x → (movePos Direction.Left p).x = p.x - 1) ∧
    (p.y = 0 → (movePos Direction.Down p).y = U32MOD - 1) ∧
    (0 < p.y → (movePos Direction.Down p).y = p.y - 1) := by
  have hU : 1 ≤ U32MOD := by norm_num [U32MOD]
  refine ⟨fun h0 => ?_, fun h0 => ?_, fun h0 => ?_, fun h0 => ?_⟩ <;>
    unfold movePos <;> dsimp only
  · rw [h0, Nat.zero_add, Nat.mod_eq_of_lt (by omega)]
  · have e : p.x + (U32MOD - 1) = (p.x - 1) + U32MOD := by omega
    rw [e, Nat.add_mod_right, Nat.mod_eq_of_lt (by omega)]
  · rw [h0, Nat.zero_add, Nat.mod_eq_of_lt (by omega)]
  · have e : p.y + (U32MOD - 1) = (p.y - 1) + U32MOD := by omega
    rw [e, Nat.add_mod_right, Nat.mod_eq_of_lt (by omega)]

/-- Witness for the amended C8 at the corner (0,0): both low-edge moves land
on 2^32 − 1. -/
theorem movePos_low_edge_behavior_witness :
    (0 : Nat) < U32MOD ∧
    (movePos Direction.Left { x := 0, y := 0 }).x = U32MOD - 1 ∧
    (movePos Direction.Down { x := 0, y := 0 }).y = U32MOD - 1 :=
  ⟨by decide,
   (movePos_low_edge_behavior { x := 0, y := 0 } (by decide) (by decide)).1 rfl,
   (movePos_low_edge_behavior { x := 0, y := 0 } (by decide)
      (by decide)).2.2.1 rfl⟩

/-! ### C7: collision check -/

/-- C7: when the position of the snake did not change since the last run the
check reports nothing; otherwise an id is flagged exactly when some
collidable entity with that id stands on the coordinate of the head and the
id differs from the entity id of the snake itself. -/
theorem check_snake_collides_spec :
    (∀ coll : List (Nat × Pos), check_snake_collides none coll = []) ∧
    (∀ (sid : Nat) (spos : Pos) (coll : List (Nat × Pos)) (i : Nat),
      i ∈ check_snake_collides (some (sid, spos)) coll ↔
        ((i, spos) ∈ coll ∧ i ≠ sid)) := by
  refine ⟨fun coll => rfl, ?_⟩
  intro sid spos coll i
  simp only [check_snake_collides, List.mem_map, List.mem_filter,
    decide_eq_true_eq]
  constructor
  · rintro ⟨⟨a, b⟩, ⟨hmem, hp, hne⟩, rfl⟩
    dsimp only at hp hne ⊢
    subst hp
    exact ⟨hmem, hne⟩
  · rintro ⟨hmem, hne⟩
    exact ⟨(i, spos), ⟨hmem, rfl, hne⟩, rfl⟩

/-! ### Food spawner (`GamePlugin::respawn_food`) -/

/-- The constant `num_attempts` from `GamePlugin::respawn_food`. -/
def num_attempts : Nat := 100

/-- The collection the random-attempt loop iterates over.  The source writes
`for _ in [0..num_attempts]`: an array literal with a single element (the
range value itself), so the loop body runs once per element of this
one-element list — exactly once — not once per value of the range. -/
def attempt_iter : List (Nat × Nat) := [(0, num_attempts)]

/-- The random phase: one loop iteration per element of `iter`, consuming
rng draws `draws k`, `draws (k+1)`, …; returns the first draw not in
`occupied` (then `break`s), or `none` when every iteration collided. -/
def randomPhase (iter : List (Nat × Nat)) (k : Nat) (draws : Nat → Pos)
    (occupied : Finset Pos) : Option Pos :=
  match iter with
  | [] => none
  | _ :: rest =>
    if draws k ∉ occupied then some (draws k)
    else randomPhase rest (k + 1) draws occupied

/-- The coordinate order of the fallback scan in `respawn_food`: `x` outer,
`y` inner (`for x in 0..x_size { for y in 0..y_size { … } }`). -/
def grid_coords (x_size y_size : Nat) : List Pos :=
  (List.range x_size).flatMap
    (fun x => (List.range y_size).map (fun y => { x := x, y := y }))

/-- The fallback exhaustive scan: the first coordinate not in `occupied`, in
`grid_coords` order (the labeled outer break stops at the first hit). -/
def scanPhase (x_size y_size : Nat) (occupied : Finset Pos) : Option Pos :=
  (grid_coords x_size y_size).find? (fun p => decide (p ∉ occupied))

/-- The system `GamePlugin::respawn_food` (plugin.rs): return immediately when food
exists; return when the occupied set covers the whole scene; otherwise run
the random phase over `attempt_iter` and, when it spawned nothing, the
exhaustive scan.  The returned coordinate is where food is spawned, `none`
when nothing is spawned. -/
def respawn_food (foodPresent : Bool) (occupied : Finset Pos)
    (x_size y_size : Nat) (draws : Nat → Pos) : Option Pos :=
  if foodPresent then none
  else if occupied.card = x_size * y_size then none
  else
    match randomPhase attempt_iter 0 draws occupied with
    | some p => some p
    | none => scanPhase x_size y_size occupied

/-- The spawner as the spec words it — "draw up to 100 uniformly random
coordinates within grid bounds; return the first not in occupied", then the
same fallback scan: the random loop runs once per value of the range
`0..num_attempts`, i.e. up to 100 times. -/
def respawn_food_spec (foodPresent : Bool) (occupied : Finset Pos)
    (x_size y_size : Nat) (draws : Nat → Pos) : Option Pos :=
  if foodPresent then none
  else if occupied.card = x_size * y_size then none
  else
    match randomPhase ((List.range num_attempts).map (fun i => (i, i + 1)))
        0 draws occupied with
    | some p => some p
    | none => scanPhase x_size y_size occupied

/-- A successful random phase returns an unoccupied coordinate. -/
theorem randomPhase_not_mem (iter : List (Nat × Nat)) :
    ∀ (k : Nat) (draws : Nat → Pos) (occupied : Finset Pos) (q : Pos),
      randomPhase iter k draws occupied = some q → q ∉ occupied := by
  induction iter with
  | nil =>
    intro k draws occupied q h
    simp [randomPhase] at h
  | cons a rest ih =>
    intro k draws occupied q h
    unfold randomPhase at h
    split at h
    · cases h
      assumption
    · exact ih (k + 1) draws occupied q h

/-- A successful scan returns an unoccupied coordinate. -/
theorem scanPhase_not_mem (x_size y_size : Nat) (occupied : Finset Pos)
    (q : Pos) (h : scanPhase x_size y_size occupied = some q) :
    q ∉ occupied := by
  have := List.find?_some h
  simpa using this

/-- C6: whenever the spawner places food, the chosen coordinate is
unoccupied, no food was present, and the occupied count differed from
`x_size * y_size` — so on a fully occupied scene, or while food exists,
nothing is spawned. -/
theorem respawn_food_safe :
    ∀ (fp : Bool) (occupied : Finset Pos) (x_size y_size : Nat)
      (draws : Nat → Pos) (p : Pos),
      respawn_food fp occupied x_size y_size draws = some p →
      p ∉ occupied ∧ fp = false ∧ occupied.card ≠ x_size * y_size := by
  intro fp occupied x_size y_size draws p h
  unfold respawn_food at h
  split at h
  · exact absurd h (by simp)
  · split at h
    · exact absurd h (by simp)
    · refine ⟨?_, by simpa using ‹¬ fp = true›, ‹¬ occupied.card = x_size * y_size›⟩
      cases hr : randomPhase attempt_iter 0 draws occupied with
      | some q =>
        rw [hr] at h
        cases h
        exact randomPhase_not_mem attempt_iter 0 draws occupied p hr
      | none =>
        rw [hr] at h
        exact scanPhase_not_mem x_size y_size occupied p h

/-- Witness for C6: on an empty 1×1 scene with no food, the spawner places
food at (0,0), which is unoccupied, and the occupied count differs from the
scene size. -/
theorem respawn_food_safe_witness :
    respawn_food false (∅ : Finset Pos) 1 1 (fun _ => { x := 0, y := 0 })
        = some { x := 0, y := 0 } ∧
    ({ x := 0, y := 0 } : Pos) ∉ (∅ : Finset Pos) ∧
    (∅ : Finset Pos).card ≠ 1 * 1 :=
  ⟨by decide,
   (respawn_food_safe false ∅ 1 1 (fun _ => { x := 0, y := 0 })
      { x := 0, y := 0 } (by decide)).1,
   (respawn_food_safe false ∅ 1 1 (fun _ => { x := 0, y := 0 })
      { x := 0, y := 0 } (by decide)).2.2⟩

/-- C5 evidence: the random-attempt loop iterates over the one-element array
`[0..num_attempts]`, so it makes exactly one random attempt.  On a 2×2 scene
with (0,0) and (1,0) occupied and rng stream (0,0), (1,1), …, the code falls
back to the scan after its single colliding attempt and spawns at (0,1),
while the 100-attempt policy of the spec would have spawned at (1,1) on the
second draw. -/
theorem respawn_food_single_attempt :
    attempt_iter.length = 1 ∧
    respawn_food false
        ({ { x := 0, y := 0 }, { x := 1, y := 0 } } : Finset Pos) 2 2
        (fun k => if k = 0 then { x := 0, y := 0 } else { x := 1, y := 1 })
      = some { x := 0, y := 1 } ∧
    respawn_food_spec false
        ({ { x := 0, y := 0 }, { x := 1, y := 0 } } : Finset Pos) 2 2
        (fun k => if k = 0 then { x := 0, y := 0 } else { x := 1, y := 1 })
      = some { x := 1, y := 1 } := by
  refine ⟨rfl, ?_, ?_⟩ <;> decide

/-! ### The fixed-timestep tick -/

/-- The per-tick game state the fixed-timestep systems operate on. -/
structure GameState where
  meta : SnakeMeta
  head : Pos
  body : List BodySeg
  foods : List (Nat × Pos)
deriving DecidableEq

/-- One fixed tick, in the declared system order: `move_snake`, then
`eat_food.after(move_snake)`, then `despawn_old.after(eat_food)`.  Bevy
applies spawn/despawn commands at the end of the Update stage (the source
comments on this), so the segment spawned by `move_snake` this tick is not
visible to `despawn_old` this tick: it joins the body after pruning.
`despawn_old` reads `snake_meta.len` after any growth by `eat_food`. -/
def tick (s : GameState) : GameState :=
  let moved := move_snake s.meta s.head
  let eaten := eat_food moved.1 moved.2.1 s.foods
  { meta := eaten.1
    head := moved.2.1
    body := despawn_old eaten.1.len s.body ++ [moved.2.2]
    foods := eaten.2 }

/-- The spawn-time game state: the snake of `spawn_snake`, no body segments,
no food. -/
def initState : GameState :=
  { meta := initMeta, head := initPos, body := [], foods := [] }

/-- Run a sequence of ticks from `s`.  Before each tick the food entities
are set to the given list: food placement between ticks is chosen
arbitrarily, over-approximating the single food item the spawner
maintains. -/
def runTicksFrom (s : GameState) : List (List (Nat × Pos)) → GameState
  | [] => s
  | fs :: rest => runTicksFrom (tick { s with foods := fs }) rest

/-- Run a sequence of ticks from the spawn-time state. -/
def runTicks (fss : List (List (Nat × Pos))) : GameState :=
  runTicksFrom initState fss

/-- The system `eat_food` grows `len` by one (u32) exactly when some food entity stands
on the position of the snake, and leaves it unchanged otherwise — the
`break` stops after the first hit even when several foods share the coordinate. -/
theorem eat_food_len (m : SnakeMeta) (p : Pos) (fs : List (Nat × Pos)) :
    (eat_food m p fs).1.len
      = if fs.any (fun f => decide (p = f.2)) then (m.len + 1) % U32MOD
        else m.len := by
  induction fs with
  | nil => rfl
  | cons f rest ih =>
    obtain ⟨et, fp⟩ := f
    unfold eat_food
    dsimp only
    split
    · simp [List.any_cons, ‹p = fp›]
    · have hd : decide (p = fp) = false := by simpa using ‹¬ p = fp›
      simp only [List.any_cons, ih, hd, Bool.false_or]

/-- When some food stands on the position of the snake, `eat_food` despawns
the
first such food entity and only that one. -/
theorem eat_food_found (m : SnakeMeta) (p : Pos) (fs : List (Nat × Pos))
    (h : fs.any (fun f => decide (p = f.2)) = true) :
    ∃ pre f post, fs = pre ++ f :: post ∧ (∀ g ∈ pre, p ≠ g.2) ∧ p = f.2 ∧
      (eat_food m p fs).2 = pre ++ post := by
  induction fs with
  | nil => simp at h
  | cons f rest ih =>
    obtain ⟨et, fp⟩ := f
    by_cases hp : p = fp
    · refine ⟨[], (et, fp), rest, by simp, by simp, hp, ?_⟩
      unfold eat_food
      dsimp only
      rw [if_pos hp]
      rfl
    · have hrest : rest.any (fun f => decide (p = f.2)) = true := by
        simpa [List.any_cons, hp] using h
      obtain ⟨pre, f, post, hfs, hpre, hf, heat⟩ := ih hrest
      refine ⟨(et, fp) :: pre, f, post, by simp [hfs], ?_, hf, ?_⟩
      · intro g hg
        rcases List.mem_cons.mp hg with hg | hg
        · rw [hg]; exact hp
        · exact hpre g hg
      · unfold eat_food
        dsimp only
        rw [if_neg hp]
        dsimp only
        rw [heat]
        rfl

/-- The prune step of `despawn_old` on the list of ages: increment each (u32), keep
those whose incremented age plus one differs from `len`. -/
def pruneAges (len : Nat) (ags : List Nat) : List Nat :=
  (ags.map (fun a => (a + 1) % U32MOD)).filter
    (fun a => decide ((a + 1) % U32MOD ≠ len))

/-- The ages after `despawn_old` are `pruneAges` of the ages before. -/
theorem despawn_old_ages (len : Nat) (body : List BodySeg) :
    (despawn_old len body).map (fun s => s.age)
      = pruneAges len (body.map (fun s => s.age)) := by
  induction body with
  | nil => rfl
  | cons s rest ih =>
    simp only [despawn_old, pruneAges, List.map_cons, List.filter_cons,
      ageSeg] at ih ⊢
    split
    · simp only [List.map_cons]
      exact congrArg (List.cons _) ih
    · exact ih

/-- The ages of the living body segments in a reachable state, newest last:
`[m−1, …, 1, 0]`. -/
def chainAges (m : Nat) : List Nat := (List.range m).reverse

theorem chainAges_succ (m : Nat) : chainAges (m + 1) = m :: chainAges m := by
  simp [chainAges, List.range_succ]

theorem chainAges_length (m : Nat) : (chainAges m).length = m := by
  simp [chainAges]

theorem chainAges_map_succ (m : Nat) :
    (chainAges m).map (fun a => a + 1) ++ [0] = chainAges (m + 1) := by
  induction m with
  | zero => rfl
  | succ m ih =>
    rw [chainAges_succ m, List.map_cons, List.cons_append, ih,
      chainAges_succ (m + 1)]

/-- Unfolding `pruneAges` on a cons. -/
theorem pruneAges_cons (len a : Nat) (l : List Nat) :
    pruneAges len (a :: l)
      = if ((a + 1) % U32MOD + 1) % U32MOD ≠ len
        then (a + 1) % U32MOD :: pruneAges len l else pruneAges len l := by
  by_cases hc : ((a + 1) % U32MOD + 1) % U32MOD ≠ len
  · simp [pruneAges, List.filter_cons, hc]
  · simp [pruneAges, List.filter_cons, hc]

/-- While the body is shorter than `len − 1`, no segment is pruned: the ages
just shift up by one. -/
theorem pruneAges_chain_keep (len : Nat) :
    ∀ m, m + 1 < len → len < U32MOD →
      pruneAges len (chainAges m) = (chainAges m).map (fun a => a + 1) := by
  intro m
  induction m with
  | zero => intro _ _; rfl
  | succ m ih =>
    intro h hM
    rw [chainAges_succ, pruneAges_cons, List.map_cons]
    have hb : (m + 1) % U32MOD = m + 1 := Nat.mod_eq_of_lt (by omega)
    have hcond : ((m + 1) % U32MOD + 1) % U32MOD ≠ len := by
      rw [hb, Nat.mod_eq_of_lt (by omega : m + 1 + 1 < U32MOD)]
      omega
    rw [if_pos hcond, ih (by omega) hM, hb]

/-- When the body has reached `len − 1` segments, exactly the oldest one is
pruned. -/
theorem pruneAges_chain_prune (len m : Nat) (h : m + 2 = len)
    (hM : len < U32MOD) :
    pruneAges len (chainAges (m + 1)) = (chainAges m).map (fun a => a + 1) := by
  rw [chainAges_succ, pruneAges_cons]
  have hb : (m + 1) % U32MOD = m + 1 := Nat.mod_eq_of_lt (by omega)
  have hcond : ¬ ((m + 1) % U32MOD + 1) % U32MOD ≠ len := by
    rw [hb, Nat.mod_eq_of_lt (by omega : m + 1 + 1 < U32MOD)]
    omega
  rw [if_neg hcond]
  exact pruneAges_chain_keep len m (by omega) hM

/-- The reachable-state invariant after `k` ticks: the length target is
between 4 and 4 + k, and the segment ages are exactly the descending chain
`[m−1, …, 0]` for `m = min k (len − 1)`. -/
def Inv (k : Nat) (s : GameState) : Prop :=
  4 ≤ s.meta.len ∧ s.meta.len ≤ 4 + k ∧
  s.body.map (fun seg => seg.age) = chainAges (min k (s.meta.len - 1))

theorem inv_init : Inv 0 initState :=
  ⟨by norm_num [initState, initMeta], by norm_num [initState, initMeta], rfl⟩

/-- One tick changes `len` by 0 or by a u32 increment. -/
theorem tick_len_cases (s : GameState) (fs : List (Nat × Pos)) :
    (tick { s with foods := fs }).meta.len = s.meta.len ∨
    (tick { s with foods := fs }).meta.len = (s.meta.len + 1) % U32MOD := by
  simp only [tick]
  rw [eat_food_len]
  split
  · right; rfl
  · left; rfl

/-- The ages after one tick: prune against the post-growth length, then the
deferred spawn appends a fresh age-0 segment. -/
theorem tick_ages (s : GameState) (fs : List (Nat × Pos)) :
    (tick { s with foods := fs }).body.map (fun seg => seg.age)
      = pruneAges (tick { s with foods := fs }).meta.len
          (s.body.map (fun seg => seg.age)) ++ [0] := by
  simp only [tick]
  rw [List.map_append, despawn_old_ages]
  rfl

theorem inv_step (k : Nat) (s : GameState) (fs : List (Nat × Pos))
    (h : Inv k s) (hb : s.meta.len + 1 < U32MOD) :
    Inv (k + 1) (tick { s with foods := fs }) := by
  obtain ⟨h4, hk, hages⟩ := h
  have hlen : (tick { s with foods := fs }).meta.len = s.meta.len ∨
      (tick { s with foods := fs }).meta.len = s.meta.len + 1 := by
    rcases tick_len_cases s fs with hc | hc
    · exact Or.inl hc
    · right
      rw [hc, Nat.mod_eq_of_lt hb]
  have hages' := tick_ages s fs
  rw [hages] at hages'
  have hmk : min k (s.meta.len - 1) ≤ k := Nat.min_le_left _ _
  have hmL : min k (s.meta.len - 1) ≤ s.meta.len - 1 := Nat.min_le_right _ _
  rcases hlen with hl | hl
  · refine ⟨by rw [hl]; omega, by rw [hl]; omega, ?_⟩
    rw [hl] at hages' ⊢
    by_cases hcase : min k (s.meta.len - 1) + 1 = s.meta.len
    · obtain ⟨m', hm'⟩ : ∃ m', min k (s.meta.len - 1) = m' + 1 :=
        ⟨min k (s.meta.len - 1) - 1, by omega⟩
      rw [hm'] at hages'
      rw [pruneAges_chain_prune _ m' (by omega) (by omega)] at hages'
      rw [hages', chainAges_map_succ]
      congr 1
      omega
    · rw [pruneAges_chain_keep _ _ (by omega) (by omega)] at hages'
      rw [hages', chainAges_map_succ]
      congr 1
      omega
  · refine ⟨by rw [hl]; omega, by rw [hl]; omega, ?_⟩
    rw [hl] at hages' ⊢
    rw [pruneAges_chain_keep _ _ (by omega) (by omega)] at hages'
    rw [hages', chainAges_map_succ]
    congr 1
    omega

theorem inv_run (fss : List (List (Nat × Pos))) :
    ∀ (k : Nat) (s : GameState), Inv k s →
      s.meta.len + fss.length < U32MOD →
      Inv (k + fss.length) (runTicksFrom s fss) := by
  induction fss with
  | nil =>
    intro k s h _
    simpa [runTicksFrom] using h
  | cons fs rest ih =>
    intro k s h hb
    simp only [runTicksFrom, List.length_cons] at hb ⊢
    have hstep := inv_step k s fs h (by omega)
    have hnext := ih (k + 1) (tick { s with foods := fs }) hstep ?_
    · have harith : k + 1 + rest.length = k + (rest.length + 1) := by omega
      rw [harith] at hnext
      exact hnext
    · have hlen' : (tick { s with foods := fs }).meta.len ≤ s.meta.len + 1 := by
        rcases tick_len_cases s fs with hc | hc
        · omega
        · rw [hc]
          exact Nat.mod_le _ _
      omega

/-! ### C1: body count vs. length target -/

/-- C1 counterexample: after the very first tick (no food eaten) the snake
has 1 living body segment while `len − 1 = 3`: the invariant
`len(body_segments) = length − 1` does not hold for every tick. -/
theorem body_count_first_tick :
    (runTicks [[]]).body.length ≠ (runTicks [[]]).meta.len - 1 := by
  decide

/-- C1 amended: after `k` ticks (any pattern of food placements), the number
of living body segments equals `min k (length − 1)` — so the stated
invariant `count = length − 1` holds exactly once at least `length − 1`
ticks have elapsed, and is preserved by every later tick. -/
theorem body_count_eq_min_ticks (fss : List (List (Nat × Pos)))
    (hb : fss.length + 5 < U32MOD) :
    (runTicks fss).body.length
      = min fss.length ((runTicks fss).meta.len - 1) := by
  have h := inv_run fss 0 initState inv_init
    (by simp only [initState, initMeta]; omega)
  obtain ⟨h4, hk, hages⟩ := h
  have hlen := congrArg List.length hages
  rw [List.length_map, chainAges_length] at hlen
  simpa [runTicks] using hlen

/-- Witness for the amended C1: after 4 ticks without food the body has
`min 4 (4 − 1) = 3` segments. -/
theorem body_count_eq_min_ticks_witness :
    ([[], [], [], []] : List (List (Nat × Pos))).length + 5 < U32MOD ∧
    (runTicks ([[], [], [], []] : List (List (Nat × Pos)))).body.length
      = min ([[], [], [], []] : List (List (Nat × Pos))).length
          ((runTicks ([[], [], [], []] : List (List (Nat × Pos)))).meta.len
            - 1) :=
  ⟨by decide, body_count_eq_min_ticks [[], [], [], []] (by decide)⟩

/-! ### C3: eating grows the snake and retains the tail -/

/-- Components of the tick, read off the definition. -/
theorem tick_meta (s : GameState) (fs : List (Nat × Pos)) :
    (tick { s with foods := fs }).meta
      = (eat_food (move_snake s.meta s.head).1
          (move_snake s.meta s.head).2.1 fs).1 := rfl

theorem tick_foods (s : GameState) (fs : List (Nat × Pos)) :
    (tick { s with foods := fs }).foods
      = (eat_food (move_snake s.meta s.head).1
          (move_snake s.meta s.head).2.1 fs).2 := rfl

theorem tick_body (s : GameState) (fs : List (Nat × Pos)) :
    (tick { s with foods := fs }).body
      = despawn_old (tick { s with foods := fs }).meta.len s.body
          ++ [(move_snake s.meta s.head).2.2] := rfl

/-- C3: on a tick where some food entity stands on the new head coordinate,
the first such food is despawned, `len` rises by exactly 1, and the oldest
segment (age `len − 2`, the one `despawn_old` would have pruned at the old
length) survives the prune because the check uses the post-growth length.
On a tick with no food at the new head, `len` is unchanged and that same
segment is pruned. -/
theorem eat_tick_growth (s : GameState) (fs : List (Nat × Pos))
    (hb : s.meta.len + 1 < U32MOD) (h2 : 2 ≤ s.meta.len) :
    (fs.any (fun f => decide ((move_snake s.meta s.head).2.1 = f.2)) = true →
      (tick { s with foods := fs }).meta.len = s.meta.len + 1 ∧
      (∃ pre f post, fs = pre ++ f :: post ∧
          (∀ g ∈ pre, (move_snake s.meta s.head).2.1 ≠ g.2) ∧
          (move_snake s.meta s.head).2.1 = f.2 ∧
          (tick { s with foods := fs }).foods = pre ++ post) ∧
      (tick { s with foods := fs }).foods.length + 1 = fs.length ∧
      (∀ seg ∈ s.body, seg.age = s.meta.len - 2 →
          ageSeg seg ∈ (tick { s with foods := fs }).body)) ∧
    (fs.any (fun f => decide ((move_snake s.meta s.head).2.1 = f.2)) = false →
      (tick { s with foods := fs }).meta.len = s.meta.len ∧
      (∀ seg ∈ s.body, seg.age = s.meta.len - 2 →
          ageSeg seg ∉ (tick { s with foods := fs }).body)) := by
  constructor
  · intro hfood
    have hL : (tick { s with foods := fs }).meta.len = s.meta.len + 1 := by
      rw [tick_meta, eat_food_len, if_pos hfood]
      show (s.meta.len + 1) % U32MOD = s.meta.len + 1
      exact Nat.mod_eq_of_lt hb
    obtain ⟨pre, f, post, hsplit, hpre, hf, heat⟩ :=
      eat_food_found (move_snake s.meta s.head).1
        (move_snake s.meta s.head).2.1 fs hfood
    refine ⟨hL, ⟨pre, f, post, hsplit, hpre, hf, by rw [tick_foods, heat]⟩,
      ?_, ?_⟩
    · rw [tick_foods, heat, hsplit]
      simp only [List.length_append, List.length_cons]
      omega
    · intro seg hseg hage
      rw [tick_body, hL]
      refine List.mem_append_left _ ?_
      unfold despawn_old
      refine List.mem_filter.mpr ⟨List.mem_map_of_mem ageSeg hseg, ?_⟩
      refine decide_eq_true ?_
      simp only [ageSeg, hage]
      rw [show s.meta.len - 2 + 1 = s.meta.len - 1 from by omega,
        Nat.mod_eq_of_lt (show s.meta.len - 1 < U32MOD from by omega),
        show s.meta.len - 1 + 1 = s.meta.len from by omega,
        Nat.mod_eq_of_lt (show s.meta.len < U32MOD from by omega)]
      omega
  · intro hfood
    have hL : (tick { s with foods := fs }).meta.len = s.meta.len := by
      rw [tick_meta, eat_food_len, if_neg (by simp [hfood])]
      rfl
    refine ⟨hL, ?_⟩
    intro seg hseg hage hmem
    rw [tick_body, hL] at hmem
    rcases List.mem_append.mp hmem with hmem | hmem
    · have hcond := (List.mem_filter.mp hmem).2
      simp only [decide_eq_true_eq] at hcond
      apply hcond
      simp only [ageSeg, hage]
      rw [show s.meta.len - 2 + 1 = s.meta.len - 1 from by omega,
        Nat.mod_eq_of_lt (show s.meta.len - 1 < U32MOD from by omega),
        show s.meta.len - 1 + 1 = s.meta.len from by omega,
        Nat.mod_eq_of_lt (show s.meta.len < U32MOD from by omega)]
    · simp only [List.mem_singleton] at hmem
      have hzero : (ageSeg seg).age = 0 := by rw [hmem]; rfl
      simp only [ageSeg, hage] at hzero
      rw [show s.meta.len - 2 + 1 = s.meta.len - 1 from by omega,
        Nat.mod_eq_of_lt (show s.meta.len - 1 < U32MOD from by omega)]
        at hzero
      omega

/-- A concrete steady state for the C3 witness: length 4, three body
segments with ages 2, 1, 0, head at (5,5) moving Right. -/
def c3State : GameState :=
  { meta := initMeta, head := initPos,
    body := [{ pos := { x := 2, y := 5 }, age := 2 },
             { pos := { x := 3, y := 5 }, age := 1 },
             { pos := { x := 4, y := 5 }, age := 0 }],
    foods := [] }

/-- The food for the C3 witness sits at (6,5), the next head coordinate. -/
def c3Foods : List (Nat × Pos) := [(7, { x := 6, y := 5 })]

/-- Witness for C3: with food at the next head coordinate, the tick grows
`len` from 4 to 5 and the age-2 tail segment survives (with age 3). -/
theorem eat_tick_growth_witness :
    c3State.meta.len + 1 < U32MOD ∧
    (tick { c3State with foods := c3Foods }).meta.len
      = c3State.meta.len + 1 ∧
    ageSeg { pos := { x := 2, y := 5 }, age := 2 }
      ∈ (tick { c3State with foods := c3Foods }).body :=
  ⟨by decide,
   ((eat_tick_growth c3State c3Foods (by decide) (by decide)).1
     (by decide)).1,
   ((eat_tick_growth c3State c3Foods (by decide) (by decide)).1
     (by decide)).2.2.2 { pos := { x := 2, y := 5 }, age := 2 }
     (by decide) (by decide)⟩

/-! ### C10: the length target is non-decreasing and at least 4 -/

theorem runTicksFrom_append (l1 l2 : List (List (Nat × Pos))) :
    ∀ s, runTicksFrom s (l1 ++ l2) = runTicksFrom (runTicksFrom s l1) l2 := by
  induction l1 with
  | nil => intro s; rfl
  | cons a t ih =>
    intro s
    simp only [List.cons_append, runTicksFrom]
    exact ih _

/-- C10: `len` starts at 4; `eat_food` — its only mutator — leaves it
unchanged or increments it exactly once per tick, even when several food
entities share the head coordinate; consequently over any run `len` stays
at least 4 and never decreases from one tick to the next. -/
theorem len_monotone_ge_four :
    initMeta.len = 4 ∧
    (∀ (m : SnakeMeta) (p : Pos) (fs : List (Nat × Pos)),
      (eat_food m p fs).1.len = m.len ∨
      (eat_food m p fs).1.len = (m.len + 1) % U32MOD) ∧
    (∀ (m : SnakeMeta) (p : Pos) (i j : Nat) (rest : List (Nat × Pos)),
      (eat_food m p ((i, p) :: (j, p) :: rest)).1.len
        = (m.len + 1) % U32MOD) ∧
    (∀ fss : List (List (Nat × Pos)), fss.length + 5 < U32MOD →
      4 ≤ (runTicks fss).meta.len ∧
      ∀ fs, (runTicks fss).meta.len ≤ (runTicks (fss ++ [fs])).meta.len) := by
  refine ⟨rfl, ?_, ?_, ?_⟩
  · intro m p fs
    rw [eat_food_len]
    split
    · right; rfl
    · left; rfl
  · intro m p i j rest
    unfold eat_food
    dsimp only
    rw [if_pos rfl]
  · intro fss hb
    have h := inv_run fss 0 initState inv_init
      (by simp only [initState, initMeta]; omega)
    obtain ⟨h4, hk, _⟩ := h
    have hk' : (runTicks fss).meta.len ≤ 4 + (0 + fss.length) := hk
    refine ⟨h4, ?_⟩
    intro fs
    have hstep : runTicks (fss ++ [fs])
        = tick { runTicks fss with foods := fs } := by
      show runTicksFrom initState (fss ++ [fs]) = _
      rw [runTicksFrom_append]
      rfl
    rw [hstep]
    rcases tick_len_cases (runTicks fss) fs with hc | hc
    · rw [hc]
    · rw [hc, Nat.mod_eq_of_lt (by omega)]
      omega

/-- Witness for C10: at spawn `len = 4`; one further (foodless) tick does
not decrease it; two foods on the head coordinate grow `len` by exactly
one. -/
theorem len_monotone_ge_four_witness :
    ([] : List (List (Nat × Pos))).length + 5 < U32MOD ∧
    4 ≤ (runTicks []).meta.len ∧
    (runTicks []).meta.len ≤ (runTicks ([] ++ [[]])).meta.len ∧
    (eat_food initMeta initPos ((0, initPos) :: (1, initPos) :: [])).1.len
      = (initMeta.len + 1) % U32MOD :=
  ⟨by decide,
   (len_monotone_ge_four.2.2.2 [] (by decide)).1,
   (len_monotone_ge_four.2.2.2 [] (by decide)).2 [],
   len_monotone_ge_four.2.2.1 initMeta initPos 0 1 []⟩

end BwSnake
